import Mathlib

/-!
Shallow embedding of `src/python/auto-completion/zsh/zsh_completion.py`.

The script walks the actions of an argparse parser and emits one zsh
completion directive per action, then substitutes the joined directives and
the program names into a template.  The file also contains standalone date
helpers (`date_difference`, `weeks_between_dates`, `days_between_dates`,
`count_sundays`, `working_days_between`).

Strings that contain brace or single-quote characters are written with the
escapes \x7b (left brace), \x7d (right brace) and \x27 (single quote).
-/

namespace ZshCompletion

/-! ## Python string primitives -/

/-- One scanning step of Python `str.replace`, with explicit fuel so the
recursion is structural.  `fuel = s.length` is always enough, because each
step drops at least one character. -/
def replaceFuel (pat rep : List Char) : Nat → List Char → List Char
  | _, [] => []
  | 0, s => s
  | fuel + 1, c :: rest =>
    if pat.isPrefixOf (c :: rest) && !pat.isEmpty then
      rep ++ replaceFuel pat rep fuel (List.drop (pat.length - 1) rest)
    else
      c :: replaceFuel pat rep fuel rest

/-- Python `str.replace` on the underlying character lists: replaces every
non-overlapping occurrence of `pat`, scanning left to right. -/
def replaceL (pat rep s : List Char) : List Char :=
  replaceFuel pat rep s.length s

/-- Python `s.replace(pat, rep)`. -/
def pyReplace (s pat rep : String) : String :=
  String.mk (replaceL pat.data rep.data s.data)

/-- Python `str.lower` (the metavars handled by the script are ASCII). -/
def pyLower (s : String) : String :=
  String.mk (s.data.map Char.toLower)

/-- Does `pat` occur as a contiguous sublist of `s`? -/
def hasSub (pat : List Char) : List Char → Bool
  | [] => pat.isEmpty
  | c :: rest => pat.isPrefixOf (c :: rest) || hasSub pat rest

/-- Does the string contain a brace character? -/
def hasBrace (s : String) : Bool :=
  s.data.any (fun c => c == Char.ofNat 123 || c == Char.ofNat 125)

/-! ## Data model of one argparse action -/

/-- The concrete class of the action, as tested on lines 142-144 of the
source: `action.__class__ in [_HelpAction, _VersionAction]`, then
`isinstance(action, _SubParsersAction)`, else anything else. -/
inductive ActionClass
  | helpCls
  | versionCls
  | subparsersCls
  | otherCls
deriving DecidableEq

/-- The `nargs` attribute: `None`, an `int`, `"*"`, `"+"` or `"?"`. -/
inductive NargsSpec
  | nNone
  | nInt (n : Nat)
  | nStar
  | nPlus
  | nQuest
deriving DecidableEq

/-- The `metavar` attribute: `None`, a `str`, or a tuple (kept as strings,
matching the `map(str, ...)` coercion on line 179). -/
inductive MetavarSpec
  | mNone
  | mStr (s : String)
  | mTuple (l : List String)
deriving DecidableEq

/-- The `type` attribute: `None`, a `FileType` instance, or some other
callable whose `__name__` is recorded.  A callable is always truthy, so the
`elif action.type:` test on line 188 succeeds exactly on `tCallable`. -/
inductive TypeSpec
  | tNone
  | tFile
  | tCallable (name : String)
deriving DecidableEq

/-- `argparse.SUPPRESS`, the help-suppression sentinel. -/
def SUPPRESS : String := "==SUPPRESS=="

/-- One argparse action, with the attributes the script reads.
`defaultClassName` is `action.default.__class__.__name__` (line 191) and
`choices` is empty exactly when `action.choices` is falsy (line 196). -/
structure Action where
  cls : ActionClass
  option_strings : List String
  nargs : NargsSpec
  help : Option String
  metavar : MetavarSpec
  dest : String
  type : TypeSpec
  defaultClassName : String
  choices : List String
deriving DecidableEq

/-! ## Per-action directive construction (lines 141-221) -/

/-- Lines 142-147: the terminal-action marker, or the
`NotImplementedError` raised for sub-command dispatchers. -/
def pfxOf (a : Action) : Except Unit String :=
  match a.cls with
  | .helpCls => .ok "\x27(- *)\x27"
  | .versionCls => .ok "\x27(- *)\x27"
  | .subparsersCls => .error ()
  | .otherCls => .ok ""

/-- Lines 149-164: the option-string and the updated positional counter. -/
def optionstrOf (position : Nat) (a : Action) : String × Nat :=
  match a.option_strings with
  | s1 :: s2 :: rest =>
    ("\x7b" ++ String.intercalate "," (s1 :: s2 :: rest) ++ "\x7d\x27", position)
  | [s] => (s ++ "\x27", position)
  | [] =>
    match a.nargs with
    | .nStar => ("\x27*", position)
    | .nPlus => ("\x27*", position)
    | .nInt n =>
      if n > 1 then
        ("\x7b" ++ String.intercalate "," ((List.range' position n).map toString)
          ++ "\x7d\x27", position + n)
      else
        (toString position ++ "\x27", position + 1)
    | _ => (toString position ++ "\x27", position + 1)

/-- Lines 166-174: the bracketed help fragment.  Python truthiness makes an
empty help string behave like an absent one. -/
def helpstrOf (a : Action) : String :=
  match a.help with
  | none => ""
  | some h =>
    if h ≠ "" ∧ h ≠ SUPPRESS ∧ a.option_strings ≠ [] then
      "[" ++ pyReplace (pyReplace h "]" "\\]") "\x27" "\x27\\\x27\x27" ++ "]"
    else
      ""

/-- Lines 176-191: the raw metavar before lower-casing. -/
def metavarRawOf (a : Action) : String :=
  match a.metavar with
  | .mStr s => s
  | .mTuple l => String.intercalate " " l
  | .mNone =>
    if a.nargs = .nInt 0 then ""
    else if a.option_strings = [] then a.dest
    else
      match a.type with
      | .tFile => "file"
      | .tCallable n => n
      | .tNone => a.defaultClassName

/-- Lines 192-194: lower-case the metavar and escape colons. -/
def metavarLowered (a : Action) : String :=
  let m := metavarRawOf a
  if m ≠ "" then pyReplace (pyLower m) ":" "\\:" else m

/-- Lines 196-211: the completion hint together with the (possibly
cleared) metavar, in that order. -/
def hintPair (a : Action) : String × String :=
  let metavar := metavarLowered a
  if a.choices ≠ [] then
    ("(" ++ String.intercalate " " a.choices ++ ")", metavar)
  else if metavar = "file" then ("_files", " ")
  else if metavar = "dir" then ("_dirs", " ")
  else if metavar = "url" then ("_urls", " ")
  else if metavar = "command" then ("_command_names -e", " ")
  else ("", metavar)

/-- Lines 141-221 for one action: the assembled directive together with the
updated positional counter, or the `NotImplementedError` from line 145. -/
def processAction (position : Nat) (a : Action) : Except Unit (String × Nat) :=
  match pfxOf a with
  | .error e => .error e
  | .ok pfx =>
    .ok (pfx ++ (optionstrOf position a).1 ++ helpstrOf a
      ++ (if (hintPair a).2 ≠ "" then ":" ++ (hintPair a).2 else (hintPair a).2)
      ++ (if (hintPair a).1 ≠ "" then ":" ++ (hintPair a).1 else (hintPair a).1)
      ++ "\x27", (optionstrOf position a).2)

/-- The whole loop of lines 139-221: the directives in order and the final
counter, or the propagated `NotImplementedError`. -/
def processActions (position : Nat) : List Action → Except Unit (List String × Nat)
  | [] => .ok ([], position)
  | a :: rest =>
    match processAction position a with
    | .error e => .error e
    | .ok (flag, position') =>
      match processActions position' rest with
      | .error e => .error e
      | .ok (flags, position'') => .ok (flag :: flags, position'')

/-! ## Template substitution (lines 226-227) -/

/-- The program-name placeholder. -/
def programsPH : String := "\x7b\x7bprograms\x7d\x7d"

/-- The flags placeholder. -/
def flagsPH : String := "\x7b\x7bflags\x7d\x7d"

/-- The separator joining the directives (line 227). -/
def flagsSep : String := " \\\n  "

/-- Lines 226-227: substitute the two placeholders into the template. -/
def joinTemplate (template : String) (binnames flags : List String) : String :=
  pyReplace (pyReplace template programsPH (String.intercalate " " binnames))
    flagsPH (String.intercalate flagsSep flags)

/-- The whole generation: process every action starting from counter 1
(line 140), then substitute into the template.  An error means the run
aborts before anything is written to the output file. -/
def generate (actions : List Action) (template : String) (binnames : List String) :
    Except Unit String :=
  match processActions 1 actions with
  | .error e => .error e
  | .ok (flags, _) => .ok (joinTemplate template binnames flags)

/-! ## Date helpers (lines 240-274)

`datetime.strptime(s, "%Y-%m-%d")` is modelled on character lists.  CPython
compiles the format to the regex `(\d\d\d\d)-(1[0-2]|0[1-9]|[1-9])-(3[01]|[12]\d|0[1-9]|[1-9])`,
requires the whole string to match, and then validates the day against the
month length.  A parsed date is `(year, month, day)`; `toOrdinal` is the
proleptic-Gregorian ordinal used by `datetime` (0001-01-01 is day 1), and
`(d2 - d1).days` is the difference of ordinals. -/

/-- Numeric value of a digit character. -/
def digitVal (c : Char) : Nat := c.toNat - 48

/-- Match regex `\d\d\d\d` (the `%Y` directive): exactly four digits. -/
def parseYear : List Char → Option (Nat × List Char)
  | c1 :: c2 :: c3 :: c4 :: rest =>
    if c1.isDigit && c2.isDigit && c3.isDigit && c4.isDigit then
      some (1000 * digitVal c1 + 100 * digitVal c2 + 10 * digitVal c3 + digitVal c4, rest)
    else none
  | _ => none

/-- Match regex `1[0-2]|0[1-9]|[1-9]` (the `%m` directive), with the
alternation tried left to right as the `re` module does. -/
def parseMonth : List Char → Option (Nat × List Char)
  | [] => none
  | c :: rest =>
    if c = '1' then
      match rest with
      | c2 :: rest2 =>
        if c2 = '0' ∨ c2 = '1' ∨ c2 = '2' then some (10 + digitVal c2, rest2)
        else some (1, rest)
      | [] => some (1, [])
    else if c = '0' then
      match rest with
      | c2 :: rest2 => if c2.isDigit ∧ c2 ≠ '0' then some (digitVal c2, rest2) else none
      | [] => none
    else if c.isDigit then some (digitVal c, rest)
    else none

/-- Match regex `3[01]|[12]\d|0[1-9]|[1-9]` (the `%d` directive). -/
def parseDay : List Char → Option (Nat × List Char)
  | [] => none
  | c :: rest =>
    if c = '3' then
      match rest with
      | c2 :: rest2 =>
        if c2 = '0' ∨ c2 = '1' then some (30 + digitVal c2, rest2)
        else some (3, rest)
      | [] => some (3, [])
    else if c = '1' ∨ c = '2' then
      match rest with
      | c2 :: rest2 =>
        if c2.isDigit then some (10 * digitVal c + digitVal c2, rest2)
        else some (digitVal c, rest)
      | [] => some (digitVal c, [])
    else if c = '0' then
      match rest with
      | c2 :: rest2 => if c2.isDigit ∧ c2 ≠ '0' then some (digitVal c2, rest2) else none
      | [] => none
    else if c.isDigit then some (digitVal c, rest)
    else none

/-- Gregorian leap year, as `calendar.isleap`. -/
def isLeap (y : Nat) : Bool :=
  y % 4 == 0 && (y % 100 != 0 || y % 400 == 0)

/-- Number of days in a month. -/
def daysInMonth (y m : Nat) : Nat :=
  if m = 2 then (if isLeap y then 29 else 28)
  else if m = 4 ∨ m = 6 ∨ m = 9 ∨ m = 11 then 30
  else 31

/-- Days before the first of month `m` in year `y`. -/
def daysBeforeMonth (y m : Nat) : Nat :=
  (match m with
    | 2 => 31 | 3 => 59 | 4 => 90 | 5 => 120 | 6 => 151 | 7 => 181
    | 8 => 212 | 9 => 243 | 10 => 273 | 11 => 304 | 12 => 334 | _ => 0)
  + (if 2 < m ∧ isLeap y then 1 else 0)

/-- Proleptic-Gregorian ordinal of a date, `datetime.toordinal`:
0001-01-01 is day 1. -/
def toOrdinal (d : Nat × Nat × Nat) : Nat :=
  365 * (d.1 - 1) + (d.1 - 1) / 4 - (d.1 - 1) / 100 + (d.1 - 1) / 400
    + daysBeforeMonth d.1 d.2.1 + d.2.2

/-- `datetime.strptime(s, "%Y-%m-%d")`: the full string must match the
compiled format regex and the result must be a valid `datetime` date
(year at least 1, day within the month). -/
def parseDate (s : String) : Option (Nat × Nat × Nat) :=
  match parseYear s.data with
  | none => none
  | some (y, rest1) =>
    match rest1 with
    | '-' :: rest2 =>
      match parseMonth rest2 with
      | none => none
      | some (m, rest3) =>
        match rest3 with
        | '-' :: rest4 =>
          match parseDay rest4 with
          | none => none
          | some (d, rest5) =>
            if rest5 = [] ∧ 1 ≤ y ∧ d ≤ daysInMonth y m then some (y, m, d)
            else none
        | _ => none
    | _ => none

/-- `weekday()` of the day with the given ordinal: Monday is 0, Sunday 6
(0001-01-01 was a Monday). -/
def weekdayOfOrdinal (o : Nat) : Nat := (o + 6) % 7

/-- Lines 240-243: `date_difference` parses the two dates and returns the
absolute day difference. -/
def date_difference (date1 date2 : String) : Option Nat :=
  match parseDate date1, parseDate date2 with
  | some d1, some d2 => some ((toOrdinal d2 : Int) - (toOrdinal d1 : Int)).natAbs
  | _, _ => none

/-- Lines 250-251: `weeks_between_dates` floor-divides the difference by 7. -/
def weeks_between_dates (date1 date2 : String) : Option Nat :=
  (date_difference date1 date2).map (fun n => n / 7)

/-- Lines 253-254: `days_between_dates` returns the difference unchanged. -/
def days_between_dates (date1 date2 : String) : Option Nat :=
  date_difference date1 date2

/-- Lines 256-264: count the Sundays in the inclusive day range from
`start_date` to `end_date` (the `while d1 <= d2` loop). -/
def count_sundays (start_date end_date : String) : Option Nat :=
  match parseDate start_date, parseDate end_date with
  | some d1, some d2 =>
    some (((List.range (toOrdinal d2 + 1 - toOrdinal d1)).map
      (fun i => toOrdinal d1 + i)).countP (fun o => weekdayOfOrdinal o == 6))
  | _, _ => none

/-- Lines 266-274: count the weekdays (Monday to Friday) in the inclusive
day range from `start_date` to `end_date`. -/
def working_days_between (start_date end_date : String) : Option Nat :=
  match parseDate start_date, parseDate end_date with
  | some d1, some d2 =>
    some (((List.range (toOrdinal d2 + 1 - toOrdinal d1)).map
      (fun i => toOrdinal d1 + i)).countP (fun o => decide (weekdayOfOrdinal o < 5)))
  | _, _ => none

/-! ## Sample actions used to instantiate the theorems -/

/-- The help action of the docstring example (lines 30-38). -/
def helpAct : Action :=
  { cls := .helpCls, option_strings := ["-h", "--help"], nargs := .nInt 0,
    help := some "show this help message and exit", metavar := .mNone,
    dest := "help", type := .tNone, defaultClassName := "NoneType", choices := [] }

/-- A sub-command dispatcher action. -/
def subAct : Action :=
  { cls := .subparsersCls, option_strings := [], nargs := .nNone,
    help := some "sub-command", metavar := .mNone, dest := "command",
    type := .tNone, defaultClassName := "NoneType", choices := [] }

/-- A positional action consuming a fixed count of two values. -/
def posFixedAct : Action :=
  { cls := .otherCls, option_strings := [], nargs := .nInt 2, help := none,
    metavar := .mNone, dest := "pos", type := .tNone,
    defaultClassName := "NoneType", choices := [] }

/-- A single-alias action whose metavar would otherwise select the
file-completion branch, but whose `choices` take priority. -/
def choicesAct : Action :=
  { cls := .otherCls, option_strings := ["--color"], nargs := .nNone,
    help := none, metavar := .mStr "FILE", dest := "color", type := .tFile,
    defaultClassName := "str", choices := ["a", "b", "c"] }

/-- An action whose help text is the suppression sentinel. -/
def supAct : Action :=
  { cls := .otherCls, option_strings := ["-q"], nargs := .nNone,
    help := some SUPPRESS, metavar := .mNone, dest := "q", type := .tNone,
    defaultClassName := "bool", choices := [] }

/-! ## Lemmas about the replace scanner -/

theorem isPrefixOf_iff : ∀ (l₁ l₂ : List Char), l₁.isPrefixOf l₂ = true ↔ ∃ t, l₂ = l₁ ++ t := by
  intro l₁
  induction l₁ with
  | nil => intro l₂; simp [List.isPrefixOf]
  | cons c cs ih =>
    intro l₂
    cases l₂ with
    | nil =>
      simp [List.isPrefixOf]
    | cons d ds =>
      simp only [List.isPrefixOf, Bool.and_eq_true, beq_iff_eq, ih ds, List.cons_append,
        List.cons.injEq]
      constructor
      · rintro ⟨rfl, t, rfl⟩; exact ⟨t, rfl, rfl⟩
      · rintro ⟨t, rfl, rfl⟩; exact ⟨rfl, t, rfl⟩

theorem replaceFuel_nil (pat rep : List Char) (f : Nat) : replaceFuel pat rep f [] = [] := by
  cases f <;> rfl

theorem replaceFuel_congr (pat rep : List Char) :
    ∀ f g s, s.length ≤ f → s.length ≤ g →
      replaceFuel pat rep f s = replaceFuel pat rep g s := by
  intro f
  induction f with
  | zero =>
    intro g s hf _
    have : s = [] := List.eq_nil_of_length_eq_zero (Nat.le_zero.mp hf)
    subst this
    rw [replaceFuel_nil, replaceFuel_nil]
  | succ f ih =>
    intro g s hf hg
    cases s with
    | nil => rw [replaceFuel_nil, replaceFuel_nil]
    | cons c rest =>
      cases g with
      | zero => simp at hg
      | succ g' =>
        simp only [replaceFuel]
        by_cases hc : (pat.isPrefixOf (c :: rest) && !pat.isEmpty) = true
        · rw [if_pos hc, if_pos hc]
          congr 1
          apply ih
          · have := List.length_drop (pat.length - 1) rest
            simp only [List.length_cons] at hf
            omega
          · have := List.length_drop (pat.length - 1) rest
            simp only [List.length_cons] at hg
            omega
        · rw [if_neg hc, if_neg hc]
          congr 1
          apply ih
          · simp only [List.length_cons] at hf; omega
          · simp only [List.length_cons] at hg; omega

theorem replaceL_nil (pat rep : List Char) : replaceL pat rep [] = [] := rfl

theorem replaceL_cons_of_neg {pat : List Char} (rep : List Char) {c : Char} {rest : List Char}
    (h : (pat.isPrefixOf (c :: rest) && !pat.isEmpty) = false) :
    replaceL pat rep (c :: rest) = c :: replaceL pat rep rest := by
  show replaceFuel pat rep (rest.length + 1) (c :: rest) = _
  simp only [replaceFuel, h]
  rfl

theorem replaceL_append_self (pat rep t : List Char) (hne : pat ≠ []) :
    replaceL pat rep (pat ++ t) = rep ++ replaceL pat rep t := by
  obtain ⟨c, cs, rfl⟩ : ∃ c cs, pat = c :: cs := by
    cases pat with
    | nil => exact absurd rfl hne
    | cons c cs => exact ⟨c, cs, rfl⟩
  show replaceFuel _ _ ((c :: (cs ++ t)).length) (c :: (cs ++ t)) = _
  have hpre : (c :: cs).isPrefixOf (c :: (cs ++ t)) = true :=
    (isPrefixOf_iff _ _).mpr ⟨t, rfl⟩
  simp only [List.length_cons, replaceFuel, hpre, List.isEmpty_cons, Bool.not_false,
    Bool.and_self, if_pos]
  congr 1
  rw [show cs.length + 1 - 1 = cs.length from rfl, List.drop_left]
  apply replaceFuel_congr
  · simp [List.length_append]
  · exact Nat.le_refl _

theorem replaceL_append_pat_of_no_early (pat rep : List Char) (hne : pat ≠ []) :
    ∀ P : List Char,
      (∀ P1 c P2, P = P1 ++ c :: P2 → pat.isPrefixOf (c :: (P2 ++ pat)) = false) →
      replaceL pat rep (P ++ pat) = P ++ rep := by
  intro P
  induction P with
  | nil =>
    intro _
    have := replaceL_append_self pat rep [] hne
    simpa [replaceL_nil] using this
  | cons c P' ih =>
    intro H
    have hhead : pat.isPrefixOf (c :: (P' ++ pat)) = false := H [] c P' rfl
    have hstep : replaceL pat rep ((c :: P') ++ pat) = c :: replaceL pat rep (P' ++ pat) :=
      replaceL_cons_of_neg rep (by simp [hhead])
    rw [hstep, ih (fun P1 c' P2 h => H (c :: P1) c' P2 (by rw [h]; rfl))]
    rfl

theorem replaceL_eq_self (pat rep : List Char) :
    ∀ s, (∀ n, n < s.length → pat.isPrefixOf (s.drop n) = false) →
      replaceL pat rep s = s := by
  intro s
  induction s with
  | nil => intro _; rfl
  | cons c rest ih =>
    intro h
    have h0 : pat.isPrefixOf (c :: rest) = false := by simpa using h 0 (by simp)
    rw [replaceL_cons_of_neg rep (by simp [h0])]
    rw [ih (fun n hn => by simpa using h (n + 1) (by simpa using hn))]

theorem hasSub_of_isPrefixOf_drop (pat : List Char) :
    ∀ (s : List Char) (n : Nat), pat.isPrefixOf (s.drop n) = true → hasSub pat s = true := by
  intro s
  induction s with
  | nil =>
    intro n h
    simp only [List.drop_nil] at h
    cases pat with
    | nil => rfl
    | cons c cs => simp [List.isPrefixOf] at h
  | cons c rest ih =>
    intro n h
    cases n with
    | zero =>
      simp only [List.drop_zero] at h
      simp [hasSub, h]
    | succ n' =>
      simp only [List.drop_succ_cons] at h
      simp [hasSub, ih n' h]

theorem no_early_of_not_hasSub (pat Pd : List Char)
    (hb : ∀ k, k < pat.length → 0 < k → pat.drop k ≠ pat.take (pat.length - k))
    (h : hasSub pat Pd = false) :
    ∀ P1 c P2, Pd = P1 ++ c :: P2 → pat.isPrefixOf (c :: (P2 ++ pat)) = false := by
  intro P1 c P2 hPd
  cases hbb : pat.isPrefixOf (c :: (P2 ++ pat)) with
  | false => rfl
  | true =>
    exfalso
    have htrue : pat.isPrefixOf ((c :: P2) ++ pat) = true := hbb
    obtain ⟨w, hw⟩ := (isPrefixOf_iff _ _).mp htrue
    rcases le_or_lt pat.length (c :: P2).length with hle | hlt
    · have h1 : ((c :: P2) ++ pat).take pat.length = (c :: P2).take pat.length := by
        rw [List.take_append_eq_append_take, Nat.sub_eq_zero_of_le hle]
        simp
      have h2 : ((pat ++ w).take pat.length) = pat := by
        rw [List.take_append_eq_append_take]
        simp
      rw [hw, h2] at h1
      have hpre : pat.isPrefixOf (c :: P2) = true := by
        apply (isPrefixOf_iff _ _).mpr
        refine ⟨(c :: P2).drop pat.length, ?_⟩
        conv_lhs => rw [← List.take_append_drop pat.length (c :: P2)]
        rw [← h1]
      have hocc : hasSub pat Pd = true := by
        apply hasSub_of_isPrefixOf_drop pat Pd P1.length
        have hdrop : Pd.drop P1.length = c :: P2 := by
          rw [hPd]; exact List.drop_left P1 (c :: P2)
        rw [hdrop]; exact hpre
      rw [h] at hocc
      exact Bool.false_ne_true hocc
    · set k := (c :: P2).length with hk
      have hkpos : 0 < k := by simp [hk]
      have h1 : (c :: P2) = pat.take k := by
        have ha : ((c :: P2) ++ pat).take k = c :: P2 := List.take_left _ _
        have hb2 : ((pat ++ w).take k) = pat.take k := by
          rw [List.take_append_eq_append_take, Nat.sub_eq_zero_of_le (Nat.le_of_lt hlt)]
          simp
        rw [hw, hb2] at ha
        exact ha.symm
      have h2 : pat.drop k ++ w = pat := by
        have ha : ((c :: P2) ++ pat).drop k = pat := List.drop_left _ _
        have hb2 : ((pat ++ w).drop k) = pat.drop k ++ w := by
          rw [List.drop_append_eq_append_drop, Nat.sub_eq_zero_of_le (Nat.le_of_lt hlt)]
          simp
        rw [hw, hb2] at ha
        exact ha
      have h3 : pat.drop k = pat.take (pat.length - k) := by
        have ha : (pat.drop k ++ w).take (pat.length - k) = pat.take (pat.length - k) := by
          rw [h2]
        have hlen : (pat.drop k).length = pat.length - k := List.length_drop _ _
        rw [List.take_append_eq_append_take, hlen] at ha
        simpa [List.take_of_length_le (le_of_eq hlen)] using ha
      exact hb k hlt hkpos h3

/-! ## Generator lemmas -/

theorem hasBrace_append (x y : String) : hasBrace (x ++ y) = (hasBrace x || hasBrace y) := by
  cases x with
  | mk xd =>
    cases y with
    | mk yd =>
      show (xd ++ yd).any _ = ((xd.any _) || (yd.any _))
      exact List.any_append

theorem processAction_error_of_sub (position : Nat) (a : Action)
    (h : a.cls = ActionClass.subparsersCls) : processAction position a = .error () := by
  simp [processAction, pfxOf, h]

theorem processActions_error_of_mem :
    ∀ (l : List Action) (position : Nat), (∃ a ∈ l, a.cls = ActionClass.subparsersCls) →
      processActions position l = .error () := by
  intro l
  induction l with
  | nil =>
    intro position h
    obtain ⟨a, ha, _⟩ := h
    exact absurd ha (List.not_mem_nil a)
  | cons b rest ih =>
    intro position h
    obtain ⟨a, ha, hcls⟩ := h
    rcases List.mem_cons.mp ha with rfl | hmem
    · simp [processActions, processAction_error_of_sub position a hcls]
    · cases hpb : processAction position b with
      | error e => cases e; simp [processActions, hpb]
      | ok val =>
        obtain ⟨flag, position'⟩ := val
        simp [processActions, hpb, ih position' ⟨a, hmem, hcls⟩]

/-! ## Claim theorems -/

/-- Claim C1: if any action in the sequence is a sub-command dispatcher,
the whole generation fails with the `NotImplementedError` of line 145,
regardless of the action's position, and no output script is produced
(the generator never reaches the template-substitution result). -/
theorem claim_c1 (actions : List Action) (template : String) (binnames : List String)
    (h : ∃ a ∈ actions, a.cls = ActionClass.subparsersCls) :
    generate actions template binnames = .error () := by
  simp [generate, processActions_error_of_mem actions 1 h]

theorem claim_c1_witness :
    (∃ a ∈ [subAct], a.cls = ActionClass.subparsersCls) ∧
      generate [subAct] "template" ["pdd"] = .error () :=
  ⟨⟨subAct, by simp, rfl⟩, claim_c1 [subAct] "template" ["pdd"] ⟨subAct, by simp, rfl⟩⟩

/-- Claim C2: with at least two aliases, the option-string (line 150) is
the brace-enclosed, comma-joined list of exactly those aliases in their
original order, closed by the quote-toggle character of the zsh dialect. -/
theorem claim_c2 (position : Nat) (a : Action) (h : 2 ≤ a.option_strings.length) :
    (optionstrOf position a).1 =
      "\x7b" ++ String.intercalate "," a.option_strings ++ "\x7d\x27" := by
  cases hos : a.option_strings with
  | nil => rw [hos] at h; simp at h
  | cons s1 tl =>
    cases tl with
    | nil => rw [hos] at h; simp at h
    | cons s2 rest => simp [optionstrOf, hos]

theorem claim_c2_witness :
    2 ≤ helpAct.option_strings.length ∧
      (optionstrOf 1 helpAct).1 =
        "\x7b" ++ String.intercalate "," helpAct.option_strings ++ "\x7d\x27" :=
  ⟨by decide, claim_c2 1 helpAct (by decide)⟩

/-- Claim C3: a positional action with fixed integer count `n > 1`
(lines 157-161) consumes the labels `position, ..., position + n - 1`
from the counter, brace-grouped and comma-joined, and the counter
advances by exactly `n`. -/
theorem claim_c3 (position : Nat) (a : Action) (n : Nat)
    (hos : a.option_strings = []) (hn : a.nargs = NargsSpec.nInt n) (h1 : 1 < n) :
    optionstrOf position a =
      ("\x7b" ++ String.intercalate "," ((List.range' position n).map toString) ++ "\x7d\x27",
        position + n) := by
  simp [optionstrOf, hos, hn, h1]

theorem claim_c3_witness :
    posFixedAct.option_strings = [] ∧ posFixedAct.nargs = NargsSpec.nInt 2 ∧ 1 < 2 ∧
      optionstrOf 5 posFixedAct =
        ("\x7b" ++ String.intercalate "," ((List.range' 5 2).map toString) ++ "\x7d\x27",
          5 + 2) :=
  ⟨rfl, rfl, by decide, claim_c3 5 posFixedAct 2 rfl rfl (by decide)⟩

/-- Claim C4: when `choices` is `["a", "b", "c"]`, the completion hint
(line 197) is exactly `(a b c)`, no matter what the action's type or
metavar would otherwise select: the choices branch is tested first. -/
theorem claim_c4 (a : Action) (h : a.choices = ["a", "b", "c"]) :
    (hintPair a).1 = "(a b c)" := by
  simp [hintPair, h]
  rfl

theorem claim_c4_witness :
    choicesAct.choices = ["a", "b", "c"] ∧ (hintPair choicesAct).1 = "(a b c)" :=
  ⟨rfl, claim_c4 choicesAct rfl⟩

/-- Claim C6: with exactly one alias, the option-string (line 152) is the
alias itself followed only by the quote-toggle character, and the
construction introduces no brace characters. -/
theorem claim_c6 (position : Nat) (a : Action) (s : String) (h : a.option_strings = [s]) :
    (optionstrOf position a).1 = s ++ "\x27" ∧
      hasBrace (optionstrOf position a).1 = hasBrace s := by
  have h1 : (optionstrOf position a).1 = s ++ "\x27" := by simp [optionstrOf, h]
  refine ⟨h1, ?_⟩
  rw [h1, hasBrace_append]
  have hq : hasBrace "\x27" = false := by decide
  simp [hq]

theorem claim_c6_witness :
    choicesAct.option_strings = ["--color"] ∧
      ((optionstrOf 1 choicesAct).1 = "--color" ++ "\x27" ∧
        hasBrace (optionstrOf 1 choicesAct).1 = hasBrace "--color") :=
  ⟨rfl, claim_c6 1 choicesAct "--color" rfl⟩

/-- Claim C7: an action whose help is absent or the suppression sentinel,
and any positional action (no aliases) whatever its help, contributes no
bracketed help fragment (lines 166-174). -/
theorem claim_c7 (a : Action)
    (h : a.help = none ∨ a.help = some SUPPRESS ∨ a.option_strings = []) :
    helpstrOf a = "" := by
  rcases h with h | h | h
  · simp [helpstrOf, h]
  · simp [helpstrOf, h]
  · cases hh : a.help with
    | none => simp [helpstrOf, hh]
    | some hs => simp [helpstrOf, hh, h]

theorem claim_c7_witness :
    (supAct.help = none ∨ supAct.help = some SUPPRESS ∨ supAct.option_strings = []) ∧
      helpstrOf supAct = "" :=
  ⟨Or.inr (Or.inl rfl), claim_c7 supAct (Or.inr (Or.inl rfl))⟩

/-- Claim C8: every directive that is produced without the
unsupported-feature failure ends with the single-quote character appended
by the format string on line 218, whatever branches were taken. -/
theorem claim_c8 (position : Nat) (a : Action) (out : String × Nat)
    (h : processAction position a = .ok out) :
    ∃ t : String, out.1 = t ++ "\x27" := by
  cases hp : pfxOf a with
  | error e => simp [processAction, hp] at h
  | ok pfx =>
    simp only [processAction, hp, Except.ok.injEq] at h
    refine ⟨pfx ++ (optionstrOf position a).1 ++ helpstrOf a
      ++ (if (hintPair a).2 ≠ "" then ":" ++ (hintPair a).2 else (hintPair a).2)
      ++ (if (hintPair a).1 ≠ "" then ":" ++ (hintPair a).1 else (hintPair a).1), ?_⟩
    rw [← h]

theorem claim_c8_witness :
    processAction 1 helpAct =
      Except.ok ("\x27(- *)\x27\x7b-h,--help\x7d\x27[show this help message and exit]\x27", 1) ∧
    ∃ t : String,
      "\x27(- *)\x27\x7b-h,--help\x7d\x27[show this help message and exit]\x27" = t ++ "\x27" :=
  ⟨rfl, claim_c8 1 helpAct
    ("\x27(- *)\x27\x7b-h,--help\x7d\x27[show this help message and exit]\x27", 1) rfl⟩

/-- Claim C5 counterexample: the claim as stated fails when the substituted
program-name text itself contains the flags placeholder, because the second
`replace` on line 227 also rewrites that occurrence: with program names
`["{{flags}}"]` and directives `["X"]` the output is `XX`, not the
program-name text followed by the directive text. -/
theorem claim_c5_counterexample :
    joinTemplate (programsPH ++ flagsPH) ["\x7b\x7bflags\x7d\x7d"] ["X"] ≠
      String.intercalate " " ["\x7b\x7bflags\x7d\x7d"] ++ String.intercalate flagsSep ["X"] := by
  decide

/-- Claim C5 (amended): for the template consisting of exactly the two
placeholders, the two substitutions of lines 226-227 produce exactly the
space-joined program names followed by the separator-joined directives,
provided the program-name text does not itself contain the flags
placeholder. -/
theorem claim_c5_amended (binnames flags : List String)
    (h : hasSub flagsPH.data (String.intercalate " " binnames).data = false) :
    joinTemplate (programsPH ++ flagsPH) binnames flags =
      String.intercalate " " binnames ++ String.intercalate flagsSep flags := by
  have e1 : pyReplace (programsPH ++ flagsPH) programsPH (String.intercalate " " binnames)
      = String.mk ((String.intercalate " " binnames).data ++ flagsPH.data) := rfl
  have e3 : replaceL flagsPH.data (String.intercalate flagsSep flags).data
      ((String.intercalate " " binnames).data ++ flagsPH.data)
      = (String.intercalate " " binnames).data ++ (String.intercalate flagsSep flags).data := by
    apply replaceL_append_pat_of_no_early _ _ (by decide)
    exact no_early_of_not_hasSub _ _ (by decide) h
  show pyReplace (pyReplace (programsPH ++ flagsPH) programsPH
      (String.intercalate " " binnames)) flagsPH (String.intercalate flagsSep flags) = _
  rw [e1]
  show String.mk (replaceL flagsPH.data (String.intercalate flagsSep flags).data
    ((String.intercalate " " binnames).data ++ flagsPH.data)) = _
  rw [e3]
  rfl

theorem claim_c5_witness :
    hasSub flagsPH.data (String.intercalate " " ["pdd"]).data = false ∧
      joinTemplate (programsPH ++ flagsPH) ["pdd"] ["A", "B"] =
        String.intercalate " " ["pdd"] ++ String.intercalate flagsSep ["A", "B"] :=
  ⟨by decide, claim_c5_amended ["pdd"] ["A", "B"] (by decide)⟩

/-- Claim C9: `days_between_dates` coincides with `date_difference`,
`weeks_between_dates` is `date_difference` floor-divided by 7, and
`date_difference` is symmetric in its two arguments because of the
absolute value on line 243. -/
theorem claim_c9 (d1 d2 : String) :
    days_between_dates d1 d2 = date_difference d1 d2 ∧
      weeks_between_dates d1 d2 = (date_difference d1 d2).map (fun n => n / 7) ∧
      date_difference d1 d2 = date_difference d2 d1 := by
  refine ⟨rfl, rfl, ?_⟩
  cases h1 : parseDate d1 with
  | none => cases h2 : parseDate d2 <;> simp [date_difference, h1, h2]
  | some a =>
    cases h2 : parseDate d2 with
    | none => simp [date_difference, h1, h2]
    | some b =>
      simp only [date_difference, h1, h2, Option.some.injEq]
      omega

/-- Claim C10: when the start date is strictly after the end date, the
inclusive `while d1 <= d2` loops of lines 260 and 270 never run, so both
`count_sundays` and `working_days_between` return 0. -/
theorem claim_c10 (s e : String) (a b : Nat × Nat × Nat)
    (hs : parseDate s = some a) (he : parseDate e = some b)
    (hlt : toOrdinal b < toOrdinal a) :
    count_sundays s e = some 0 ∧ working_days_between s e = some 0 := by
  have hz : toOrdinal b + 1 - toOrdinal a = 0 := by omega
  constructor
  · simp [count_sundays, hs, he, hz]
  · simp [working_days_between, hs, he, hz]

theorem claim_c10_witness :
    parseDate "2023-01-02" = some (2023, 1, 2) ∧
      parseDate "2023-01-01" = some (2023, 1, 1) ∧
      toOrdinal (2023, 1, 1) < toOrdinal (2023, 1, 2) ∧
      count_sundays "2023-01-02" "2023-01-01" = some 0 ∧
      working_days_between "2023-01-02" "2023-01-01" = some 0 :=
  ⟨rfl, rfl, by decide,
    claim_c10 "2023-01-02" "2023-01-01" (2023, 1, 2) (2023, 1, 1) rfl rfl (by decide)⟩

end ZshCompletion
